import Mathlib

/-!
# Memory-mapped file storage (`files/mmfile.go`)

A shallow embedding of `MMFile` — `NewMMFile`, `Close`, `Size`, `Grow`,
`Buffer`, `unmap`, `checkSize` — over an explicit model of the operating
system objects the code drives: the file table, the descriptor table and the
set of active memory mappings.

Conventions.
* Go `int64` and `int` (64-bit) values are `Int`; the two places where the
  source does machine arithmetic (`idx+size`, `mmf.size - offs`) go through
  `wrap64`.
* Every method with a pointer receiver is a function returning the new
  instance (and the new `World` when it performs system calls).
* The outcome of each fallible system call is chosen by a `Faults` record, so
  every error path of the source is reachable in the model.
-/

namespace MMFileModel

/-! ## Errors -/

/-- Go `error` values that the code builds or receives. `errInvalid` is the
sentinel `errors.ErrInvalid`; `osInvalid` is `os.ErrInvalid`, which `os.File`
methods return for a nil receiver; `os c` is an error reported by a system
call or by the mmap library; `wrapped` is `fmt.Errorf` with a `%w` verb and
`plain` is `fmt.Errorf` without one. -/
inductive Error where
  | errInvalid
  | osInvalid
  | os (code : Nat)
  | wrapped (msg : String) (inner : Error)
  | plain (msg : String)
  deriving DecidableEq, Repr

/-- The test `errors.Is(e, errors.ErrInvalid)`: walk the `%w` chain. -/
def wrapsErrInvalid : Error → Bool
  | .errInvalid => true
  | .wrapped _ inner => wrapsErrInvalid inner
  | _ => false

/-- Outcome of a call that returns `(value, error)` and may panic at run time.
`err e` stands for the pair `(nil, e)`. -/
inductive Res (α : Type) where
  | ok (a : α)
  | err (e : Error)
  | panic
  deriving DecidableEq, Repr

/-! ## Machine integers -/

/-- Two's-complement wrap-around of a mathematical integer into `int64`. -/
def wrap64 (x : Int) : Int := (x + 2 ^ 63) % 2 ^ 64 - 2 ^ 63

/-- The largest Go `int` on a 64-bit platform (`math.MaxInt`). -/
def maxInt : Int := 2 ^ 63 - 1

/-! ## The operating system -/

/-- One byte of file or mapped memory. -/
abbrev Byte := Fin 256

/-- A regular file: its length and the byte stored at every offset below it.
`byte` is only ever read below `len`. -/
structure FileData where
  len : Nat
  byte : Nat → Byte

/-- The file `open(2)` creates under `O_CREATE`: empty. -/
def FileData.empty : FileData := ⟨0, fun _ => 0⟩

/-- The byte at offset `i`, when `i` is inside the file. -/
def FileData.read (d : FileData) (i : Nat) : Option Byte :=
  if i < d.len then some (d.byte i) else none

/-- Effect of `ftruncate(2)`: the length becomes `n`; bytes below the old
length are kept, bytes the file gains read as zero. -/
def FileData.resize (d : FileData) (n : Nat) : FileData :=
  ⟨n, fun i => if i < d.len then d.byte i else 0⟩

/-- Store `data` at offsets `off, off+1, ...`; the length does not change. -/
def FileData.store (d : FileData) (off : Nat) (data : List Byte) : FileData :=
  ⟨d.len, fun i => if off ≤ i ∧ i < off + data.length then data.getD (i - off) 0 else d.byte i⟩

/-- A value of the library type `mmap.MMap`: a byte slice over a shared
mapping of the first `len` bytes of the file `path` (`len = cap`). -/
structure MMap where
  id : Nat
  path : String
  len : Nat
  deriving DecidableEq, Repr

/-- State of the operating system as far as `MMFile` can observe or change it:
the page size (`os.Getpagesize()`), the files by path, the table of open
descriptors (descriptor to path) and the table of active mappings. -/
structure World where
  pageSize : Nat
  files : String → Option FileData
  fds : Nat → Option String
  maps : Nat → Option MMap
  nextFd : Nat
  nextMap : Nat

/-- Which system calls fail during one call into the package, and with which
error code. `none` lets the call succeed whenever its arguments allow it. -/
structure Faults where
  stat : Option Nat
  openFile : Option Nat
  mapRegion : Option Nat
  fileStat : Option Nat
  truncate : Option Nat
  close : Option Nat
  deriving DecidableEq, Repr

/-- No injected failure. -/
def Faults.none : Faults := ⟨.none, .none, .none, .none, .none, .none⟩

/-- Length of the file at `path`; `0` when there is no such file. -/
def World.fileLen (w : World) (path : String) : Nat :=
  match w.files path with
  | some d => d.len
  | none => 0

/-- The byte at offset `i` of the file at `path`; `none` when there is no such
file or `i` is at or beyond its end. -/
def World.fileByte (w : World) (path : String) (i : Nat) : Option Byte :=
  match w.files path with
  | some d => d.read i
  | none => none

/-- Replace the file stored at `path`. -/
def World.setFile (w : World) (path : String) (d : FileData) : World :=
  { w with files := fun p => if p = path then some d else w.files p }

/-- Model of `os.Stat(fname)`, reduced to `fi.Size()`: fails when the call is
made to fail or when no file exists at the path. -/
def osStat (w : World) (fl : Faults) (fname : String) : Except Error Int :=
  match fl.stat with
  | some c => .error (.os c)
  | none =>
    match w.files fname with
    | some d => .ok d.len
    | none => .error (.os 2)

/-- Model of `os.OpenFile(fname, os.O_RDWR|os.O_CREATE, 0666)`: a fresh
descriptor for the path; an absent file is created empty. -/
def osOpenFile (w : World) (fl : Faults) (fname : String) : Except Error (Nat × World) :=
  match fl.openFile with
  | some c => .error (.os c)
  | none =>
    let files := fun p => if p = fname then some ((w.files fname).getD FileData.empty) else w.files p
    .ok (w.nextFd,
      { w with files := files,
               fds := fun i => if i = w.nextFd then some fname else w.fds i,
               nextFd := w.nextFd + 1 })

/-- Model of `(*os.File).Stat()`, reduced to `fi.Size()`. A nil receiver gives
`os.ErrInvalid`. -/
def fileStat (w : World) (fl : Faults) (f : Option Nat) : Except Error Int :=
  match f with
  | none => .error .osInvalid
  | some fd =>
    match fl.fileStat with
    | some c => .error (.os c)
    | none =>
      match w.fds fd with
      | none => .error (.os 9)
      | some p =>
        match w.files p with
        | some d => .ok d.len
        | none => .error (.os 2)

/-- Model of `(*os.File).Truncate(size)`: sets the length of the file behind
the descriptor to exactly `size`. A nil receiver gives `os.ErrInvalid`. -/
def fileTruncate (w : World) (fl : Faults) (f : Option Nat) (size : Int) : Except Error World :=
  match f with
  | none => .error .osInvalid
  | some fd =>
    match fl.truncate with
    | some c => .error (.os c)
    | none =>
      match w.fds fd with
      | none => .error (.os 9)
      | some p =>
        if size < 0 then .error (.os 22)
        else
          match w.files p with
          | some d => .ok (w.setFile p (d.resize size.toNat))
          | none => .error (.os 2)

/-- Model of `(*os.File).Close()`: the descriptor is released whether or not
an error is reported. A nil receiver gives `os.ErrInvalid`. -/
def fileClose (w : World) (fl : Faults) (f : Option Nat) : Option Error × World :=
  match f with
  | none => (some .osInvalid, w)
  | some fd =>
    let w1 := { w with fds := fun i => if i = fd then none else w.fds i }
    match fl.close with
    | some c => (some (.os c), w1)
    | none =>
      match w.fds fd with
      | none => (some (.os 9), w1)
      | some _ => (none, w1)

/-- Model of `mmap.MapRegion(f, length, mmap.RDWR, 0, 0)`: a new shared
mapping of the first `length` bytes of the file behind the descriptor. The
mapping may be longer than the file. The code only calls it with a positive
`length`. -/
def mapRegion (w : World) (fl : Faults) (f : Option Nat) (length : Int) : Except Error (MMap × World) :=
  match f with
  | none => .error (.os 9)
  | some fd =>
    match fl.mapRegion with
    | some c => .error (.os c)
    | none =>
      match w.fds fd with
      | none => .error (.os 9)
      | some p =>
        if length ≤ 0 then .error (.os 22)
        else
          let mp : MMap := ⟨w.nextMap, p, length.toNat⟩
          .ok (mp, { w with maps := fun i => if i = w.nextMap then some mp else w.maps i,
                            nextMap := w.nextMap + 1 })

/-- Model of `munmap(2)` on the region of `mp`: the mapping is no longer
active. -/
def munmap (w : World) (mp : MMap) : World :=
  { w with maps := fun i => if i = mp.id then none else w.maps i }

/-- Whether `mp` is one of the active mappings. -/
def World.mapped (w : World) (mp : MMap) : Prop := w.maps mp.id = some mp

instance (w : World) (mp : MMap) : Decidable (w.mapped mp) := by
  unfold World.mapped; infer_instance

/-- The byte a load from offset `i` of the mapping `mp` returns: the byte of
the mapped file there. `none` when the load faults: the mapping is not active,
`i` is outside it, or `i` is beyond the end of the file. -/
def World.load (w : World) (mp : MMap) (i : Nat) : Option Byte :=
  if w.maps mp.id = some mp ∧ i < mp.len then
    match w.files mp.path with
    | some d => d.read i
    | none => none
  else none

/-! ## Go slices over a mapping -/

/-- A Go byte slice cut out of an `mmap.MMap`: the window `[lo, hi)` of the
backing mapping (`none`: the nil slice). -/
structure Slice where
  mf : Option MMap
  lo : Nat
  hi : Nat
  deriving DecidableEq, Repr

/-- Number of elements of the slice (`len(s)`). -/
def Slice.length (s : Slice) : Nat := s.hi - s.lo

/-- The slice expression `mf[lo:hi]` on a value of type `mmap.MMap`, whose
capacity equals its length (`0` for nil). `none` is the run-time panic
"slice bounds out of range", raised unless `0 ≤ lo ≤ hi ≤ cap(mf)`. -/
def sliceExpr (mf : Option MMap) (lo hi : Int) : Option Slice :=
  let cap : Int := match mf with
    | some mp => mp.len
    | none => 0
  if 0 ≤ lo ∧ lo ≤ hi ∧ hi ≤ cap then some ⟨mf, lo.toNat, hi.toNat⟩ else none

/-- The bytes a reader finds in the slice; `none` when some load faults. -/
def World.readSlice (w : World) (s : Slice) : Option (List Byte) :=
  match s.mf with
  | none => some []
  | some mp => (List.range (s.hi - s.lo)).mapM (fun k => w.load mp (s.lo + k))

/-- The builtin `copy(dst, src)` with `dst` a slice of a shared mapping:
the first `min(len(dst), len(src))` bytes of `src` land in the mapped file at
the offsets of `dst`. `none` when a store faults. -/
def World.copyInto (w : World) (dst : Slice) (src : List Byte) : Option World :=
  match dst.mf with
  | none => some w
  | some mp =>
    if w.maps mp.id = some mp ∧ dst.hi ≤ mp.len then
      match w.files mp.path with
      | some d =>
        if dst.hi ≤ d.len then some (w.setFile mp.path (d.store dst.lo (src.take (dst.hi - dst.lo))))
        else none
      | none => none
    else none

/-! ## The package `files` -/

/-- The struct `MMFile`. `f` is the `*os.File` (nil, or the descriptor it
owns) and `mf` the `mmap.MMap` (nil, or the mapping). -/
structure MMFile where
  fn : String
  f : Option Nat
  mf : Option MMap
  size : Int
  deriving DecidableEq, Repr

/-- Source `checkSize`: `none` is the nil error. `os.Getpagesize()` is the
`pageSize` argument. -/
def checkSize (pageSize : Nat) (size : Int) : Option Error :=
  if size ≤ 0 then
    some (.wrapped "provided size must be positive, and the file should not be empty, but size=%d: %w" .errInvalid)
  else if size.tmod (pageSize : Int) ≠ 0 then
    some (.wrapped "size=%d must be a multiple of %d: %w" .errInvalid)
  else none

/-- Source `NewMMFile`. Returns the pair of the Go result and the state the
operating system is left in. -/
def NewMMFile (w : World) (fl : Faults) (fname : String) (size : Int) : Res MMFile × World :=
  let target : Except Error Int :=
    if size < 0 then
      match osStat w fl fname with
      | .error _ => .error (.plain "could not read info for the file %s and the mapped size=%d")
      | .ok n => .ok n
    else .ok size
  match target with
  | .error e => (.err e, w)
  | .ok size =>
    match checkSize w.pageSize size with
    | some e => (.err e, w)
    | none =>
      match osOpenFile w fl fname with
      | .error e => (.err (.wrapped "could not open file %s: %w" e), w)
      | .ok o =>
        let f := o.1
        match mapRegion o.2 fl (some f) size with
        | .error e =>
          (.err (.wrapped "could not map file %s to the memory: %w" e),
            (fileClose o.2 fl (some f)).2)
        | .ok r =>
          let mf := r.1
          match fileStat r.2 fl (some f) with
          | .error e =>
            (.err (.wrapped "could not read file %s info after mapping: %w" e),
              (fileClose r.2 fl (some f)).2)
          | .ok fiSize =>
            if fiSize < size then
              match fileTruncate r.2 fl (some f) size with
              | .error e => (.err (.wrapped "could not extend file %s size to %d: %w" e), r.2)
              | .ok w3 => (.ok ⟨fname, some f, some mf, size⟩, w3)
            else (.ok ⟨fname, some f, some mf, size⟩, r.2)

namespace MMFile

/-- Source `(*MMFile).unmap`. The library method `Unmap` releases the region
and sets the slice it is called on to nil; its error is dropped by the
caller. -/
def unmap (mmf : MMFile) (w : World) : MMFile × World :=
  match mmf.mf with
  | none => (mmf, w)
  | some mp => ({ mmf with mf := none }, munmap w mp)

/-- Source `(*MMFile).Close`. -/
def Close (mmf : MMFile) (w : World) (fl : Faults) : Option Error × MMFile × World :=
  match mmf.f with
  | some fd =>
    let u := mmf.unmap w
    let c := fileClose u.2 fl (some fd)
    (c.1, { u.1 with f := none, size := -1 }, c.2)
  | none => (none, mmf, w)

/-- Source `(*MMFile).Size`. -/
def Size (mmf : MMFile) : Int := mmf.size

/-- Source `(*MMFile).Grow`. -/
def Grow (mmf : MMFile) (w : World) (fl : Faults) (newSize : Int) : Option Error × MMFile × World :=
  if mmf.size ≥ newSize then
    (some (.wrapped "expecting new size %d to be more the existing one=%d: %w" .errInvalid), mmf, w)
  else
    match checkSize w.pageSize newSize with
    | some err => (some err, mmf, w)
    | none =>
      let u := mmf.unmap w
      match fileTruncate u.2 fl u.1.f newSize with
      | .error err =>
        let c := u.1.Close u.2 fl
        (some (.wrapped "could not extend file size to %d: %w" err), c.2.1, c.2.2)
      | .ok w2 =>
        match mapRegion w2 fl u.1.f newSize with
        | .error err =>
          let c := ({ u.1 with mf := none } : MMFile).Close w2 fl
          (some err, c.2.1, c.2.2)
        | .ok r => (none, { u.1 with mf := some r.1, size := newSize }, r.2)

/-- Source `(*MMFile).Buffer`. `offs` is an `int64` and `size` an `int`; the
sum `idx+size` and the difference `mmf.size - offs` are machine arithmetic.
The method assigns to no field, so the instance is returned as it came. -/
def Buffer (mmf : MMFile) (offs : Int) (size : Int) : Res Slice × MMFile :=
  if offs < 0 ∨ offs ≥ mmf.size then
    (.err (.wrapped "offset=%d out of bounds [0..%d]: %w" .errInvalid), mmf)
  else
    let idx := offs
    let size := if wrap64 (idx + size) ≥ mmf.size then wrap64 (mmf.size - offs) else size
    match sliceExpr mmf.mf idx (wrap64 (idx + size)) with
    | some s => (.ok s, mmf)
    | none => (.panic, mmf)

end MMFile

/-! ## Sequences of calls on one instance -/

/-- A call a client makes on an instance, with the failures the operating
system injects while it runs. `write offs data` is the client idiom
`b, err := Buffer(offs, len(data)); copy(b, data)`. -/
inductive Op where
  | size
  | buffer (offs size : Int)
  | grow (fl : Faults) (newSize : Int)
  | close (fl : Faults)
  | write (offs : Int) (data : List Byte)

/-- What a call returned. -/
inductive Ret where
  | int (n : Int)
  | slice (r : Res Slice)
  | error (e : Option Error)
  deriving DecidableEq, Repr

/-- Whether the call reported a failure: a non-nil error (for `Buffer`, the
error result). -/
def Ret.failed : Ret → Bool
  | .int _ => false
  | .slice (.err _) => true
  | .slice _ => false
  | .error e => e.isSome

/-- One call. A `write` whose store would fault leaves the world as it is. -/
def step (op : Op) (mmf : MMFile) (w : World) : Ret × MMFile × World :=
  match op with
  | .size => (.int mmf.Size, mmf, w)
  | .buffer offs size => let r := mmf.Buffer offs size; (.slice r.1, r.2, w)
  | .grow fl newSize => let r := mmf.Grow w fl newSize; (.error r.1, r.2.1, r.2.2)
  | .close fl => let r := mmf.Close w fl; (.error r.1, r.2.1, r.2.2)
  | .write offs data =>
    let r := mmf.Buffer offs data.length
    match r.1 with
    | .ok s => (.slice r.1, r.2, (w.copyInto s data).getD w)
    | _ => (.slice r.1, r.2, w)

/-- The calls of `ops` in order; the result lists, for each call, the call,
what it returned and the state it left. -/
def trace : List Op → MMFile → World → List (Op × Ret × MMFile × World)
  | [], _, _ => []
  | op :: ops, mmf, w =>
    let r := step op mmf w
    (op, r) :: trace ops r.2.1 r.2.2

/-- The state after the calls of `ops`. -/
def run : List Op → MMFile → World → MMFile × World
  | [], mmf, w => (mmf, w)
  | op :: ops, mmf, w => let r := step op mmf w; run ops r.2.1 r.2.2

/-! ## Predicates on states -/

/-- The byte found at offset `i` of the instance's current mapping. -/
def MMFile.byteAt (mmf : MMFile) (w : World) (i : Nat) : Option Byte :=
  match mmf.mf with
  | some mp => w.load mp i
  | none => none

/-- An open instance in a consistent world: the handle is an open descriptor
of the file `fn`, the mapping is an active mapping of the first `size` bytes
of that file, `size` is a positive multiple of the page size and the file is
at least `size` bytes long. `NewMMFile` establishes it and every call keeps it
for as long as the instance stays open (`openInst_of_NewMMFile`,
`inv_step`). -/
def OpenInst (mmf : MMFile) (w : World) : Prop :=
  ∃ fd mp, mmf.f = some fd ∧ mmf.mf = some mp ∧ w.fds fd = some mmf.fn ∧
    mp.path = mmf.fn ∧ (mp.len : Int) = mmf.size ∧ w.maps mp.id = some mp ∧
    0 < mmf.size ∧ mmf.size % (w.pageSize : Int) = 0 ∧ mmf.size ≤ (w.fileLen mmf.fn : Int)

/-- The state `Close` leaves: no handle and the sentinel size. -/
def Closed (mmf : MMFile) : Prop := mmf.f = none ∧ mmf.size = -1

/-- Invariant of the call sequences on one instance, for the page size `ps`:
the instance is either closed for good or open and consistent. -/
def Inv (ps : Nat) (mmf : MMFile) (w : World) : Prop :=
  w.pageSize = ps ∧ (mmf.f = none ∨ OpenInst mmf w)

/-! ## Concrete states used in the examples -/

/-- A machine with 4096-byte pages and no file, descriptor or mapping. -/
def emptyWorld : World := ⟨4096, fun _ => none, fun _ => none, fun _ => none, 3, 0⟩

/-- The ten bytes of the ASCII text HELLOWORLD. -/
def helloWorld : List Byte := [72, 69, 76, 76, 79, 87, 79, 82, 76, 68]

/-- Every system call succeeds except `Truncate`, which fails with `EIO`. -/
def truncateFails : Faults := ⟨none, none, none, none, some 5, none⟩

/-- Every system call succeeds except `MapRegion`, which fails with `ENOMEM`. -/
def mapFails : Faults := ⟨none, none, some 12, none, none, none⟩

/-- Every system call succeeds except `(*os.File).Stat`, which fails with `EIO`. -/
def fileStatFails : Faults := ⟨none, none, none, some 5, none, none⟩

/-- An open instance of size 4096 over descriptor 3 and mapping 0. -/
def onePage : MMFile := ⟨"data.bin", some 3, some ⟨0, "data.bin", 4096⟩, 4096⟩

/-- The world the scenario of the specification reaches before it grows the
storage: on the empty machine, `NewMMFile("data.bin", 4096)` succeeds (and
returns `onePage`), then HELLOWORLD is written through `Buffer(0, 10)`. -/
def onePageWorld : World :=
  (run [.write 0 helloWorld] onePage
    (NewMMFile emptyWorld Faults.none "data.bin" 4096).2).2

/-- A machine with 4096-byte pages whose only file, `data.bin`, is three pages
long and holds the byte 7 everywhere. -/
def threePageWorld : World :=
  ⟨4096, fun p => if p = "data.bin" then some ⟨12288, fun _ => 7⟩ else none,
   fun _ => none, fun _ => none, 3, 0⟩

/-- The outcome of `Grow(8192)` on `onePage` in `onePageWorld`, with every
system call succeeding. -/
def grown : Option Error × MMFile × World := onePage.Grow onePageWorld Faults.none 8192

/-- A sequence of calls exercising every kind of call: a view write, a
growth to two pages, a read, a rejected growth, a growth to three pages and a
size query. -/
def scenarioOps : List Op :=
  [.write 0 helloWorld, .grow Faults.none 8192, .buffer 4096 10, .grow Faults.none 100,
   .grow Faults.none 12288, .size]


/-! ## Validation -/

theorem wrap64_of_inRange {x : Int} (h0 : -(2 ^ 63) ≤ x) (h1 : x ≤ maxInt) : wrap64 x = x := by
  unfold maxInt at h1
  unfold wrap64
  omega

theorem tmod_eq_emod_of_nonneg {a : Int} {n : Nat} (ha : 0 ≤ a) :
    a.tmod (n : Int) = a % (n : Int) :=
  Int.tmod_eq_emod ha (Int.ofNat_nonneg n)

theorem checkSize_eq_none_iff (ps : Nat) (size : Int) :
    checkSize ps size = none ↔ 0 < size ∧ size % (ps : Int) = 0 := by
  unfold checkSize
  by_cases h : size ≤ 0
  · simp [h]
  · have h0 : 0 ≤ size := by omega
    rw [tmod_eq_emod_of_nonneg h0]
    by_cases h2 : size % (ps : Int) = 0
    · simp [h, h2]; omega
    · simp [h, h2]

theorem checkSize_wraps {ps : Nat} {size : Int} {e : Error}
    (h : checkSize ps size = some e) : wrapsErrInvalid e = true := by
  unfold checkSize at h
  split at h
  · cases h; rfl
  · split at h
    · cases h; rfl
    · cases h

theorem checkSize_some_of_bad {ps : Nat} {size : Int}
    (h : ¬ (0 < size ∧ size % (ps : Int) = 0)) : ∃ e, checkSize ps size = some e := by
  cases hc : checkSize ps size with
  | none => exact absurd ((checkSize_eq_none_iff ps size).1 hc) h
  | some e => exact ⟨e, rfl⟩

/-! ## `Buffer` -/

/-- C2. `Buffer(offs, size)` with `offs < 0` or `offs >= Size()`, in any state
of the instance and for any length, returns the nil slice with an error that
wraps `ErrInvalid`, and hands back the instance with every field as it was. -/
theorem Buffer_out_of_range (mmf : MMFile) (offs size : Int)
    (h : offs < 0 ∨ offs ≥ mmf.Size) :
    ∃ e, mmf.Buffer offs size = (.err e, mmf) ∧ wrapsErrInvalid e = true := by
  unfold MMFile.Size at h
  refine ⟨.wrapped "offset=%d out of bounds [0..%d]: %w" .errInvalid, ?_, rfl⟩
  unfold MMFile.Buffer
  rw [if_pos h]

theorem Buffer_out_of_range_witness :
    (4096 : Int) ≥ onePage.Size ∧
    ∃ e, onePage.Buffer 4096 10 = (.err e, onePage) ∧ wrapsErrInvalid e = true :=
  ⟨by decide, Buffer_out_of_range onePage 4096 10 (Or.inr (by decide))⟩

/-- Away from overflow the clamp of `Buffer` works: on an open instance, an
offset inside the mapping and a length that runs past the end, with
`offs + size` still an `int`, give the slice `mf[offs : Size()]`, of exactly
`Size() - offs` bytes. -/
theorem Buffer_clamps_of_no_overflow (mmf : MMFile) (w : World) (offs size : Int)
    (hopen : OpenInst mmf w) (h0 : 0 ≤ offs) (h1 : offs < mmf.Size)
    (hpast : offs + size > mmf.Size) (hno : offs + size ≤ maxInt) (hsz : mmf.Size ≤ maxInt) :
    ∃ s, mmf.Buffer offs size = (.ok s, mmf) ∧ s.mf = mmf.mf ∧ (s.lo : Int) = offs ∧
      (s.hi : Int) = mmf.Size ∧ (s.length : Int) = mmf.Size - offs := by
  obtain ⟨fd, mp, -, hmf, -, -, hlen, -, hpos, -, -⟩ := hopen
  unfold MMFile.Size at *
  unfold maxInt at hno hsz
  have hw1 : wrap64 (offs + size) = offs + size := by unfold wrap64; omega
  have hw2 : wrap64 (mmf.size - offs) = mmf.size - offs := by unfold wrap64; omega
  have hw3 : wrap64 (offs + (mmf.size - offs)) = mmf.size := by unfold wrap64; omega
  have hnot : ¬ (offs < 0 ∨ offs ≥ mmf.size) := by omega
  have hge : offs + size ≥ mmf.size := by omega
  have hcond : (0 ≤ offs ∧ offs ≤ mmf.size ∧ mmf.size ≤ (mp.len : Int)) := by omega
  refine ⟨⟨mmf.mf, offs.toNat, mmf.size.toNat⟩, ?_, rfl, ?_, ?_, ?_⟩
  · unfold MMFile.Buffer
    simp only [if_neg hnot, hw1, hge, if_true, hw2, hw3, sliceExpr, hmf, hcond, and_self]
  · simp; omega
  · simp; omega
  · simp [Slice.length]; omega

/-- C1 (failing input). On the open one-page instance, `Buffer(1, math.MaxInt)`
asks for a range that runs past the end, yet the sum `idx+size` wraps to a
negative number, the clamp is skipped and the slice expression panics. -/
theorem Buffer_panics_on_overflow :
    (NewMMFile emptyWorld Faults.none "data.bin" 4096).1 = .ok onePage ∧
    OpenInst onePage onePageWorld ∧ (1 : Int) + maxInt > onePage.Size ∧
    onePage.Buffer 1 maxInt = (.panic, onePage) := by
  refine ⟨by decide, ⟨3, ⟨0, "data.bin", 4096⟩, rfl, rfl, by decide, rfl, by decide, by decide,
    by decide, by decide, by decide⟩, by decide, by decide⟩

/-! ## Rejected arguments of `Grow` and `NewMMFile` -/

/-- C3. `Grow(newSize)` with `newSize <= Size()`, or with `newSize` not a
positive multiple of the page size, returns an error that wraps `ErrInvalid`
and changes nothing: the instance (handle, mapping, size) and the operating
system state (files, descriptors, mappings) are the ones before the call. -/
theorem Grow_rejects_invalid (mmf : MMFile) (w : World) (fl : Faults) (newSize : Int)
    (_hps : 0 < w.pageSize)
    (h : newSize ≤ mmf.Size ∨ ¬ (0 < newSize ∧ newSize % (w.pageSize : Int) = 0)) :
    ∃ e, mmf.Grow w fl newSize = (some e, mmf, w) ∧ wrapsErrInvalid e = true ∧
      (mmf.Grow w fl newSize).2.1.Size = mmf.Size := by
  unfold MMFile.Size at *
  by_cases h1 : mmf.size ≥ newSize
  · refine ⟨.wrapped "expecting new size %d to be more the existing one=%d: %w" .errInvalid,
      ?_, rfl, ?_⟩ <;> simp [MMFile.Grow, h1]
  · have h2 : ¬ (0 < newSize ∧ newSize % (w.pageSize : Int) = 0) := by
      rcases h with h | h
      · omega
      · exact h
    obtain ⟨e, he⟩ := checkSize_some_of_bad h2
    refine ⟨e, ?_, checkSize_wraps he, ?_⟩ <;> simp [MMFile.Grow, h1, he]

theorem Grow_rejects_invalid_witness :
    (0 < onePageWorld.pageSize) ∧
    ∃ e, onePage.Grow onePageWorld Faults.none 6000 = (some e, onePage, onePageWorld) ∧
      wrapsErrInvalid e = true ∧
      (onePage.Grow onePageWorld Faults.none 6000).2.1.Size = onePage.Size :=
  ⟨by decide, Grow_rejects_invalid onePage onePageWorld Faults.none 6000 (by decide)
    (Or.inr (by decide))⟩

/-- C5. When the target size of `NewMMFile` — the requested size if it is
`>= 0`, else the length `os.Stat` reports for the existing file — is zero or
not a multiple of the page size, the call returns a nil instance with an error
that wraps `ErrInvalid`, and the operating system state is the one before the
call: no file was opened, created, mapped or truncated. -/
theorem NewMMFile_rejects_bad_size (w : World) (fl : Faults) (fname : String)
    (size target : Int) (_hps : 0 < w.pageSize)
    (ht : (0 ≤ size ∧ target = size) ∨ (size < 0 ∧ osStat w fl fname = .ok target))
    (hbad : target = 0 ∨ target % (w.pageSize : Int) ≠ 0) :
    ∃ e, NewMMFile w fl fname size = (.err e, w) ∧ wrapsErrInvalid e = true := by
  have h2 : ¬ (0 < target ∧ target % (w.pageSize : Int) = 0) := by
    rintro ⟨hp, hm⟩
    rcases hbad with h | h
    · omega
    · exact h hm
  obtain ⟨e, he⟩ := checkSize_some_of_bad h2
  refine ⟨e, ?_, checkSize_wraps he⟩
  rcases ht with ⟨h0, rfl⟩ | ⟨h0, hst⟩
  · have : ¬ target < 0 := by omega
    simp [NewMMFile, this, he]
  · simp [NewMMFile, h0, hst, he]

theorem NewMMFile_rejects_bad_size_witness :
    (0 < emptyWorld.pageSize) ∧ ((0 : Int) ≤ 4097 ∧ (4097 : Int) = 4097) ∧
    ((4097 : Int) % (emptyWorld.pageSize : Int) ≠ 0) ∧
    ∃ e, NewMMFile emptyWorld Faults.none "data.bin" 4097 = (.err e, emptyWorld) ∧
      wrapsErrInvalid e = true :=
  ⟨by decide, by decide, by decide,
    NewMMFile_rejects_bad_size emptyWorld Faults.none "data.bin" 4097 4097 (by decide)
      (Or.inl (by decide)) (Or.inr (by decide))⟩

/-! ## Failure paths of `NewMMFile` -/

/-- When `MapRegion` or the `Stat` after it fails, `NewMMFile` closes the
handle it opened: the descriptor is no longer in the descriptor table. -/
theorem NewMMFile_closes_on_map_or_stat_failure (w : World) (fl : Faults) (fname : String)
    (size : Int) (f : Nat) (w1 : World) (hsz : 0 ≤ size)
    (hchk : checkSize w.pageSize size = none)
    (hopen : osOpenFile w fl fname = .ok (f, w1))
    (hfail : (∃ e, mapRegion w1 fl (some f) size = .error e) ∨
      (∃ mf w2, mapRegion w1 fl (some f) size = .ok (mf, w2) ∧
        ∃ e, fileStat w2 fl (some f) = .error e)) :
    (∃ e, (NewMMFile w fl fname size).1 = .err e) ∧ (NewMMFile w fl fname size).2.fds f = none := by
  have h0 : ¬ size < 0 := by omega
  rcases hfail with ⟨e, he⟩ | ⟨mf, w2, hm, e, he⟩
  · simp [NewMMFile, h0, hchk, hopen, he, fileClose]
    cases fl.close <;> simp
    cases w1.fds f <;> simp
  · have hfds : w2.fds = w1.fds := by
      unfold mapRegion at hm
      simp only at hm
      split at hm
      · cases hm
      · split at hm
        · cases hm
        · split at hm
          · cases hm
          · cases hm; rfl
    simp [NewMMFile, h0, hchk, hopen, hm, he, fileClose]
    cases fl.close <;> simp
    cases w2.fds f <;> simp

/-- C6 (failing input). `NewMMFile("data.bin", 4096)` on a machine without the
file, with `Truncate` failing: the file is opened and mapped, the extension
fails, the error is returned, and descriptor 3 — the handle just opened — is
still open, as is the mapping. The sibling failure paths (`MapRegion`, `Stat`)
on the same machine do close it. -/
theorem NewMMFile_leaks_handle_on_truncate_failure :
    (NewMMFile emptyWorld truncateFails "data.bin" 4096).1 =
      .err (.wrapped "could not extend file %s size to %d: %w" (.os 5)) ∧
    emptyWorld.fds 3 = none ∧
    (NewMMFile emptyWorld truncateFails "data.bin" 4096).2.fds 3 = some "data.bin" ∧
    (NewMMFile emptyWorld truncateFails "data.bin" 4096).2.maps 0 = some ⟨0, "data.bin", 4096⟩ ∧
    (NewMMFile emptyWorld mapFails "data.bin" 4096).2.fds 3 = none ∧
    (NewMMFile emptyWorld fileStatFails "data.bin" 4096).2.fds 3 = none := by
  refine ⟨by decide, by decide, by decide, by decide, by decide, by decide⟩


/-! ## What the system calls do when they succeed -/

theorem mapRegion_ok {w : World} {fl : Faults} {fd : Nat} {n : Int} {r : MMap × World}
    (h : mapRegion w fl (some fd) n = .ok r) :
    ∃ p, w.fds fd = some p ∧ 0 < n ∧ r.1 = ⟨w.nextMap, p, n.toNat⟩ ∧
      r.2 = { w with maps := fun i => if i = w.nextMap then some ⟨w.nextMap, p, n.toNat⟩
                                      else w.maps i,
                     nextMap := w.nextMap + 1 } := by
  unfold mapRegion at h
  simp only at h
  split at h
  · cases h
  · split at h
    · cases h
    · rename_i p hp
      split at h
      · cases h
      · rename_i hn
        cases h
        exact ⟨p, hp, by omega, rfl, rfl⟩

theorem fileTruncate_ok {w w' : World} {fl : Faults} {fd : Nat} {n : Int}
    (h : fileTruncate w fl (some fd) n = .ok w') :
    ∃ p d, w.fds fd = some p ∧ 0 ≤ n ∧ w.files p = some d ∧
      w' = w.setFile p (d.resize n.toNat) := by
  unfold fileTruncate at h
  simp only at h
  split at h
  · cases h
  · split at h
    · cases h
    · rename_i p hp
      split at h
      · cases h
      · rename_i hn
        split at h
        · rename_i d hd
          cases h
          exact ⟨p, d, hp, by omega, hd, rfl⟩
        · cases h

theorem fileTruncate_nil (w : World) (fl : Faults) (n : Int) :
    fileTruncate w fl none n = .error .osInvalid := rfl

theorem fileStat_ok {w : World} {fl : Faults} {fd : Nat} {n : Int}
    (h : fileStat w fl (some fd) = .ok n) :
    ∃ p d, w.fds fd = some p ∧ w.files p = some d ∧ n = (d.len : Int) := by
  unfold fileStat at h
  simp only at h
  split at h
  · cases h
  · split at h
    · cases h
    · rename_i p hp
      split at h
      · rename_i d hd
        cases h
        exact ⟨p, d, hp, hd, rfl⟩
      · cases h

theorem osOpenFile_ok {w : World} {fl : Faults} {fname : String} {o : Nat × World}
    (h : osOpenFile w fl fname = .ok o) :
    o.1 = w.nextFd ∧
      o.2 = { w with files := fun p => if p = fname then
                                some ((w.files fname).getD FileData.empty) else w.files p,
                     fds := fun i => if i = w.nextFd then some fname else w.fds i,
                     nextFd := w.nextFd + 1 } := by
  unfold osOpenFile at h
  split at h
  · cases h
  · cases h
    exact ⟨rfl, rfl⟩

theorem fileClose_fds (w : World) (fl : Faults) (fd : Nat) :
    (fileClose w fl (some fd)).2 = { w with fds := fun i => if i = fd then none else w.fds i } := by
  unfold fileClose
  simp only
  split
  · rfl
  · split <;> rfl

/-! ## `unmap` and `Close` -/

@[simp] theorem unmap_f (m : MMFile) (w : World) : (m.unmap w).1.f = m.f := by
  unfold MMFile.unmap; split <;> rfl

@[simp] theorem unmap_fn (m : MMFile) (w : World) : (m.unmap w).1.fn = m.fn := by
  unfold MMFile.unmap; split <;> rfl

@[simp] theorem unmap_size (m : MMFile) (w : World) : (m.unmap w).1.size = m.size := by
  unfold MMFile.unmap; split <;> rfl

@[simp] theorem unmap_mf (m : MMFile) (w : World) : (m.unmap w).1.mf = none := by
  unfold MMFile.unmap; split
  · assumption
  · rfl

@[simp] theorem unmap_fds (m : MMFile) (w : World) : (m.unmap w).2.fds = w.fds := by
  unfold MMFile.unmap; split <;> rfl

@[simp] theorem unmap_files (m : MMFile) (w : World) : (m.unmap w).2.files = w.files := by
  unfold MMFile.unmap; split <;> rfl

@[simp] theorem unmap_pageSize (m : MMFile) (w : World) :
    (m.unmap w).2.pageSize = w.pageSize := by
  unfold MMFile.unmap; split <;> rfl

@[simp] theorem unmap_nextMap (m : MMFile) (w : World) : (m.unmap w).2.nextMap = w.nextMap := by
  unfold MMFile.unmap; split <;> rfl

theorem unmap_maps (m : MMFile) (w : World) (mp : MMap) (h : m.mf = some mp) :
    (m.unmap w).2.maps mp.id = none := by
  unfold MMFile.unmap; simp [h, munmap]

theorem Close_of_nil {m : MMFile} (w : World) (fl : Faults) (h : m.f = none) :
    m.Close w fl = (none, m, w) := by
  unfold MMFile.Close; simp [h]

theorem Close_of_open {m : MMFile} {fd : Nat} (w : World) (fl : Faults) (h : m.f = some fd) :
    (m.Close w fl).2.1 = { (m.unmap w).1 with f := none, size := -1 } ∧
    (m.Close w fl).2.2 =
      { (m.unmap w).2 with fds := fun i => if i = fd then none else w.fds i } := by
  simp [MMFile.Close, h, fileClose_fds]


/-! ## `Grow` -/

/-- Everything a successful `Grow` does, in one place. -/
theorem Grow_ok {m m' : MMFile} {w w' : World} {fl : Faults} {n : Int}
    (h : m.Grow w fl n = (none, m', w')) :
    ∃ fd p d, m.f = some fd ∧ w.fds fd = some p ∧ w.files p = some d ∧
      m.size < n ∧ 0 < n ∧ n % (w.pageSize : Int) = 0 ∧
      m' = ⟨m.fn, some fd, some ⟨w.nextMap, p, n.toNat⟩, n⟩ ∧
      w'.pageSize = w.pageSize ∧ w'.fds = w.fds ∧
      w'.files = (fun q => if q = p then some (d.resize n.toNat) else w.files q) ∧
      w'.maps = (fun i => if i = w.nextMap then some ⟨w.nextMap, p, n.toNat⟩
                          else (m.unmap w).2.maps i) := by
  unfold MMFile.Grow at h
  split at h
  · cases h
  · rename_i hlt
    split at h
    · cases h
    · rename_i hchk
      obtain ⟨hpos, hmod⟩ := (checkSize_eq_none_iff _ _).1 hchk
      simp only [unmap_f] at h
      split at h
      · cases h
      · rename_i w2 htr
        split at h
        · cases h
        · rename_i r hmap
          cases hf : m.f with
          | none => rw [hf, fileTruncate_nil] at htr; cases htr
          | some fd =>
            rw [hf] at htr hmap
            obtain ⟨p, d, hp, -, hd, hw2⟩ := fileTruncate_ok htr
            obtain ⟨p', hp', -, hr1, hr2⟩ := mapRegion_ok hmap
            subst hw2
            simp only [unmap_fds, unmap_files, World.setFile] at hp hd hp'
            rw [hp] at hp'
            cases hp'
            simp only [Prod.mk.injEq] at h
            obtain ⟨-, hm', hw'⟩ := h
            refine ⟨fd, p, d, rfl, hp, hd, by omega, hpos, hmod, ?_, ?_, ?_, ?_, ?_⟩
            · rw [← hm', hr1]
              simp [hf, World.setFile]
            · rw [← hw', hr2]; simp [World.setFile]
            · rw [← hw', hr2]; simp [World.setFile]
            · rw [← hw', hr2]; simp [World.setFile]
            · rw [← hw', hr2]; simp [World.setFile]

/-- Every outcome of `Grow` on an instance with no handle: an error, with the
instance still without handle and its size untouched. -/
theorem Grow_of_nil {m : MMFile} (w : World) (fl : Faults) (n : Int) (hf : m.f = none) :
    (∃ e, (m.Grow w fl n).1 = some e) ∧ (m.Grow w fl n).2.1.f = none ∧
      (m.Grow w fl n).2.1.size = m.size ∧
      (m.Grow w fl n).2.2.pageSize = w.pageSize := by
  unfold MMFile.Grow
  split
  · exact ⟨⟨_, rfl⟩, hf, rfl, rfl⟩
  · split
    · exact ⟨⟨_, rfl⟩, hf, rfl, rfl⟩
    · have hu : (m.unmap w).1.f = none := by simp [hf]
      simp only [unmap_f, hf, fileTruncate_nil]
      rw [Close_of_nil _ _ hu]
      exact ⟨⟨_, rfl⟩, hu, by simp, by simp⟩

/-- Every outcome of `Grow` that reports an error on an instance holding a
handle `fd`: either nothing changed, or the instance was closed. -/
theorem Grow_error_cases {m : MMFile} {fd : Nat} (w : World) (fl : Faults) (n : Int)
    (hf : m.f = some fd) (e : Error) (h : (m.Grow w fl n).1 = some e) :
    (m.Grow w fl n).2 = (m, w) ∨
    ((m.Grow w fl n).2.1 = ⟨m.fn, none, none, -1⟩ ∧
      (m.Grow w fl n).2.2.pageSize = w.pageSize ∧
      (m.Grow w fl n).2.2.fds fd = none ∧
      (m.Grow w fl n).2.2.maps = (m.unmap w).2.maps) := by
  obtain ⟨fn, f, mf, size⟩ := m
  simp only at hf
  subst hf
  unfold MMFile.Grow at h ⊢
  split
  · exact Or.inl rfl
  · split
    · exact Or.inl rfl
    · right
      rename_i hge x hchk
      simp only [if_neg hge, hchk] at h
      simp only [unmap_f] at h ⊢
      split
      · cases mf <;>
          simp [MMFile.Close, MMFile.unmap, fileClose_fds, munmap]
      · rename_i w2 htr
        obtain ⟨p, d, hp, -, hd, hw2⟩ := fileTruncate_ok htr
        subst hw2
        split
        · cases mf <;>
            simp [MMFile.Close, MMFile.unmap, fileClose_fds, munmap, World.setFile]
        · rename_i r hmap
          simp only [htr, hmap] at h
          cases h


/-! ## `NewMMFile` -/

theorem osStat_ok {w : World} {fl : Faults} {fname : String} {n : Int}
    (h : osStat w fl fname = .ok n) : n = (w.fileLen fname : Int) := by
  unfold osStat at h
  unfold World.fileLen
  split at h
  · cases h
  · split at h
    · cases h; rfl
    · cases h

/-- Everything a successful `NewMMFile` does, in one place: `t` is the target
size, `d0` the file found or created by the open. -/
theorem NewMMFile_ok {w0 w : World} {fl : Faults} {fname : String} {size : Int} {m : MMFile}
    (h : NewMMFile w0 fl fname size = (.ok m, w)) :
    ∃ t : Int, (0 ≤ size → t = size) ∧ (size < 0 → t = (w0.fileLen fname : Int)) ∧
      0 < t ∧ t % (w0.pageSize : Int) = 0 ∧
      m = ⟨fname, some w0.nextFd, some ⟨w0.nextMap, fname, t.toNat⟩, t⟩ ∧
      w.pageSize = w0.pageSize ∧
      w.fds w0.nextFd = some fname ∧
      w.maps w0.nextMap = some ⟨w0.nextMap, fname, t.toNat⟩ ∧
      w.files fname = some (if (w0.fileLen fname : Int) < t
        then ((w0.files fname).getD FileData.empty).resize t.toNat
        else (w0.files fname).getD FileData.empty) := by
  unfold NewMMFile at h
  simp only at h
  split at h
  · cases h
  · rename_i t htarget
    split at h
    · cases h
    · rename_i hchk
      obtain ⟨hpos, hmod⟩ := (checkSize_eq_none_iff _ _).1 hchk
      have ht1 : 0 ≤ size → t = size := by
        intro hs
        have : ¬ size < 0 := by omega
        simp only [this, if_false] at htarget
        cases htarget; rfl
      have ht2 : size < 0 → t = (w0.fileLen fname : Int) := by
        intro hs
        simp only [hs, if_true] at htarget
        cases hst : osStat w0 fl fname with
        | error e => rw [hst] at htarget; cases htarget
        | ok n =>
          rw [hst] at htarget
          cases htarget
          exact osStat_ok hst
      split at h
      · cases h
      · rename_i o hopen
        obtain ⟨ho1, ho2⟩ := osOpenFile_ok hopen
        split at h
        · cases h
        · rename_i r hmap
          rw [ho1] at hmap
          obtain ⟨p, hp, -, hr1, hr2⟩ := mapRegion_ok hmap
          rw [ho2] at hp hr1 hr2
          simp only [if_true] at hp
          cases hp
          simp only at hr1 hr2
          split at h
          · cases h
          · rename_i fiSize hstat
            rw [ho1] at hstat
            obtain ⟨p', d', hp', hd', hfi⟩ := fileStat_ok hstat
            rw [hr2] at hp' hd'
            simp only [if_true] at hp'
            cases hp'
            simp only [if_true] at hd'
            cases hd'
            have hlen : (((w0.files fname).getD FileData.empty).len : Int) = (w0.fileLen fname : Int) := by
              unfold World.fileLen
              cases w0.files fname <;> simp [FileData.empty]
            rw [hlen] at hfi
            subst hfi
            split at h
            · rename_i hlt
              split at h
              · cases h
              · rename_i w3 htr
                rw [ho1] at htr
                obtain ⟨p2, d2, hp2, -, hd2, hw3⟩ := fileTruncate_ok htr
                rw [hr2] at hp2 hd2
                simp only [if_true] at hp2
                cases hp2
                simp only [if_true] at hd2
                cases hd2
                simp only [Prod.mk.injEq, Res.ok.injEq] at h
                obtain ⟨hm, hw⟩ := h
                subst hw hw3
                refine ⟨t, ht1, ht2, hpos, hmod, ?_, ?_, ?_, ?_, ?_⟩
                · rw [← hm, hr1, ho1]
                · rw [hr2]; rfl
                · rw [hr2]; simp [World.setFile]
                · rw [hr2]; simp [World.setFile]
                · simp [World.setFile, hlt]
            · rename_i hlt
              simp only [Prod.mk.injEq, Res.ok.injEq] at h
              obtain ⟨hm, hw⟩ := h
              subst hw
              refine ⟨t, ht1, ht2, hpos, hmod, ?_, ?_, ?_, ?_, ?_⟩
              · rw [← hm, hr1, ho1]
              · rw [hr2]
              · rw [hr2]; simp
              · rw [hr2]; simp
              · rw [hr2]; simp [hlt]

/-- A successful `NewMMFile` returns an open instance in a consistent world. -/
theorem openInst_of_NewMMFile {w0 w : World} {fl : Faults} {fname : String} {size : Int}
    {m : MMFile} (h : NewMMFile w0 fl fname size = (.ok m, w)) :
    Inv w0.pageSize m w ∧ OpenInst m w := by
  obtain ⟨t, -, -, hpos, hmod, hm, hps, hfd, hmp, hfile⟩ := NewMMFile_ok h
  subst hm
  have hO : OpenInst ⟨fname, some w0.nextFd, some ⟨w0.nextMap, fname, t.toNat⟩, t⟩ w := by
    refine ⟨w0.nextFd, ⟨w0.nextMap, fname, t.toNat⟩, rfl, rfl, hfd, rfl, ?_, hmp, hpos, ?_, ?_⟩
    · simp; omega
    · rw [hps]; exact hmod
    · have hlen : (((w0.files fname).getD FileData.empty).len : Int) = (w0.fileLen fname : Int) := by
        unfold World.fileLen
        cases w0.files fname <;> simp [FileData.empty]
      by_cases hlt : (w0.fileLen fname : Int) < t
      · rw [if_pos hlt] at hfile
        have : w.fileLen fname = t.toNat := by
          unfold World.fileLen; rw [hfile]; rfl
        show t ≤ (w.fileLen fname : Int)
        rw [this]; omega
      · rw [if_neg hlt] at hfile
        have : w.fileLen fname = ((w0.files fname).getD FileData.empty).len := by
          unfold World.fileLen; rw [hfile]
        show t ≤ (w.fileLen fname : Int)
        rw [this]; omega
  exact ⟨⟨hps, Or.inr hO⟩, hO⟩


/-! ## The invariant of call sequences -/

theorem Buffer_inst (m : MMFile) (offs size : Int) : (m.Buffer offs size).2 = m := by
  unfold MMFile.Buffer
  split
  · rfl
  · simp only
    split <;> rfl

theorem copyInto_facts {w w' : World} {s : Slice} {data : List Byte}
    (h : w.copyInto s data = some w') :
    w'.pageSize = w.pageSize ∧ w'.fds = w.fds ∧ w'.maps = w.maps ∧
      ∀ p, w'.fileLen p = w.fileLen p := by
  unfold World.copyInto at h
  split at h
  · cases h; exact ⟨rfl, rfl, rfl, fun _ => rfl⟩
  · rename_i mp hmp
    split at h
    · split at h
      · rename_i d hd
        split at h
        · cases h
          refine ⟨rfl, rfl, rfl, fun p => ?_⟩
          unfold World.fileLen World.setFile
          by_cases hp : p = mp.path
          · subst hp; simp [hd, FileData.store]
          · simp [hp]
        · cases h
      · cases h
    · cases h

theorem OpenInst_of_world_eq {m : MMFile} {w w' : World} (h : OpenInst m w)
    (hps : w'.pageSize = w.pageSize) (hfds : w'.fds = w.fds) (hmaps : w'.maps = w.maps)
    (hlen : ∀ p, w'.fileLen p = w.fileLen p) : OpenInst m w' := by
  obtain ⟨fd, mp, h1, h2, h3, h4, h5, h6, h7, h8, h9⟩ := h
  exact ⟨fd, mp, h1, h2, by rw [hfds]; exact h3, h4, h5, by rw [hmaps]; exact h6, h7,
    by rw [hps]; exact h8, by rw [hlen]; exact h9⟩

theorem OpenInst_of_Grow_ok {m m' : MMFile} {w w' : World} {fl : Faults} {n : Int}
    (ho : OpenInst m w) (h : m.Grow w fl n = (none, m', w')) : OpenInst m' w' := by
  obtain ⟨fd, mp, h1, h2, h3, h4, h5, h6, h7, h8, h9⟩ := ho
  obtain ⟨fd', p, d, g1, g2, g3, g4, g5, g6, g7, g8, g9, g10, g11⟩ := Grow_ok h
  rw [h1] at g1
  cases g1
  rw [h3] at g2
  cases g2
  subst g7
  refine ⟨fd, ⟨w.nextMap, m.fn, n.toNat⟩, rfl, rfl, ?_, rfl, ?_, ?_, g5, ?_, ?_⟩
  · rw [g9]; exact h3
  · simp; omega
  · rw [g11]; simp
  · rw [g8]; exact g6
  · unfold World.fileLen
    rw [g10]
    simp [FileData.resize]

theorem inv_step {ps : Nat} {m : MMFile} {w : World} (op : Op) (h : Inv ps m w) :
    Inv ps (step op m w).2.1 (step op m w).2.2 := by
  obtain ⟨hps, hm⟩ := h
  cases op with
  | size => exact ⟨hps, hm⟩
  | buffer offs size =>
    simp only [step, Buffer_inst]
    exact ⟨hps, hm⟩
  | grow fl n =>
    simp only [step]
    rcases hm with hnil | ho
    · obtain ⟨-, h2, -, h4⟩ := Grow_of_nil w fl n hnil
      exact ⟨by rw [h4]; exact hps, Or.inl h2⟩
    · cases hr : (m.Grow w fl n).1 with
      | none =>
        have hg : m.Grow w fl n = (none, (m.Grow w fl n).2.1, (m.Grow w fl n).2.2) := by
          rw [← hr]
        have ho' := OpenInst_of_Grow_ok ho hg
        obtain ⟨fd', p, d, -, -, -, -, -, -, -, g8, -⟩ := Grow_ok hg
        exact ⟨by rw [g8]; exact hps, Or.inr ho'⟩
      | some e =>
        have ho2 := ho
        obtain ⟨fd, mp, h1, -⟩ := ho2
        rcases Grow_error_cases w fl n h1 e hr with hsame | ⟨hc1, hc2, -, -⟩
        · rw [hsame]
          exact ⟨hps, Or.inr ho⟩
        · exact ⟨by rw [hc2]; exact hps, Or.inl (by rw [hc1])⟩
  | close fl =>
    simp only [step]
    cases hf : m.f with
    | none =>
      rw [Close_of_nil w fl hf]
      exact ⟨hps, Or.inl hf⟩
    | some fd =>
      obtain ⟨c1, c2⟩ := Close_of_open w fl hf
      refine ⟨?_, Or.inl (by rw [c1])⟩
      rw [c2]; simpa using hps
  | write offs data =>
    simp only [step, Buffer_inst]
    split
    · rename_i s hs
      simp only [Buffer_inst]
      cases hc : w.copyInto s data with
      | none => exact ⟨hps, hm⟩
      | some w' =>
        obtain ⟨f1, f2, f3, f4⟩ := copyInto_facts hc
        refine ⟨by simp [f1, hps], ?_⟩
        rcases hm with hnil | ho
        · exact Or.inl hnil
        · exact Or.inr (OpenInst_of_world_eq ho f1 f2 f3 f4)
    · simp only [Buffer_inst]
      exact ⟨hps, hm⟩

theorem Close_fn (m : MMFile) (w : World) (fl : Faults) : (m.Close w fl).2.1.fn = m.fn := by
  unfold MMFile.Close
  split
  · simp
  · rfl

theorem Grow_fn (m : MMFile) (w : World) (fl : Faults) (n : Int) :
    (m.Grow w fl n).2.1.fn = m.fn := by
  unfold MMFile.Grow
  split
  · rfl
  · split
    · rfl
    · simp only
      split
      · rw [Close_fn]; simp
      · split
        · rw [Close_fn]; simp
        · simp

theorem step_fn (op : Op) (m : MMFile) (w : World) : (step op m w).2.1.fn = m.fn := by
  cases op with
  | size => rfl
  | buffer offs size => simp only [step, Buffer_inst]
  | grow fl n => simp only [step, Grow_fn]
  | close fl => simp only [step, Close_fn]
  | write offs data =>
    simp only [step]
    split <;> simp only [Buffer_inst]

theorem run_fn (ops : List Op) (m : MMFile) (w : World) : (run ops m w).1.fn = m.fn := by
  induction ops generalizing m w with
  | nil => rfl
  | cons op ops ih =>
    simp only [run]
    rw [ih, step_fn]

theorem inv_run {ps : Nat} (ops : List Op) {m : MMFile} {w : World} (h : Inv ps m w) :
    Inv ps (run ops m w).1 (run ops m w).2 := by
  induction ops generalizing m w with
  | nil => exact h
  | cons op ops ih => exact ih (inv_step op h)

/-- C8. A successful `NewMMFile(path, s)` with `s >= 0` returns an instance
with `Size() == s`; and after any sequence of `Size`, `Buffer`, `Grow`,
`Close` and view-write calls on the returned instance, whatever their
outcomes, an instance that is still open has `Size() > 0`,
`Size() % pageSize == 0` and a backing file at least `Size()` bytes long. -/
theorem open_instance_invariant (w0 : World) (fl : Faults) (fname : String) (s : Int)
    (m : MMFile) (hok : (NewMMFile w0 fl fname s).1 = .ok m) :
    (0 ≤ s → m.Size = s) ∧
    ∀ ops : List Op, (run ops m (NewMMFile w0 fl fname s).2).1.f ≠ none →
      0 < (run ops m (NewMMFile w0 fl fname s).2).1.Size ∧
      (run ops m (NewMMFile w0 fl fname s).2).1.Size % (w0.pageSize : Int) = 0 ∧
      (run ops m (NewMMFile w0 fl fname s).2).1.Size ≤
        ((run ops m (NewMMFile w0 fl fname s).2).2.fileLen fname : Int) ∧
      (run ops m (NewMMFile w0 fl fname s).2).1.fn = fname := by
  have hnew : NewMMFile w0 fl fname s = (.ok m, (NewMMFile w0 fl fname s).2) := by
    rw [← hok]
  generalize (NewMMFile w0 fl fname s).2 = w at hnew ⊢
  obtain ⟨hinv, -⟩ := openInst_of_NewMMFile hnew
  obtain ⟨t, ht, -, -, -, hm, -⟩ := NewMMFile_ok hnew
  have hfn : m.fn = fname := by rw [hm]
  refine ⟨fun hs => by rw [hm]; exact ht hs, fun ops hopen => ?_⟩
  obtain ⟨hps, hcase⟩ := inv_run ops hinv
  rcases hcase with hnil | ho
  · exact absurd hnil hopen
  · obtain ⟨fd, mp, -, -, -, -, -, -, h7, h8, h9⟩ := ho
    have hfn2 : (run ops m w).1.fn = fname := by rw [run_fn, hfn]
    rw [hps] at h8
    rw [hfn2] at h9
    exact ⟨h7, h8, h9, hfn2⟩


/-! ## Growth keeps the old bytes and zero-fills the new ones -/

theorem pair_eta {α β γ : Type} (x : α × β × γ) (a : α) (h : x.1 = a) : x = (a, x.2.1, x.2.2) := by
  subst h; rfl

/-- C4. On an open instance of size `s1`, when `Grow(s2)` returns nil:
`Size() == s2`; every byte of the mapping at an offset below `s1` is readable
before and after the call and is the same byte; and, when the backing file was
no longer than `s1`, every byte at an offset in `[s1, s2)` reads as zero. -/
theorem Grow_keeps_bytes_and_zero_fills (mmf : MMFile) (w : World) (fl : Faults) (s2 : Int)
    (hopen : OpenInst mmf w) (hok : (mmf.Grow w fl s2).1 = none) :
    (mmf.Grow w fl s2).2.1.Size = s2 ∧ mmf.Size < s2 ∧ s2 % (w.pageSize : Int) = 0 ∧
    (∀ i : Nat, (i : Int) < mmf.Size →
      ∃ b, mmf.byteAt w i = some b ∧
        (mmf.Grow w fl s2).2.1.byteAt (mmf.Grow w fl s2).2.2 i = some b) ∧
    ((w.fileLen mmf.fn : Int) ≤ mmf.Size →
      ∀ i : Nat, mmf.Size ≤ (i : Int) → (i : Int) < s2 →
        (mmf.Grow w fl s2).2.1.byteAt (mmf.Grow w fl s2).2.2 i = some 0) := by
  have hg := pair_eta _ _ hok
  obtain ⟨fd, mp, h1, h2, h3, h4, h5, h6, h7, h8, h9⟩ := hopen
  obtain ⟨fd', p, d, g1, g2, g3, g4, g5, g6, g7, g8, g9, g10, g11⟩ := Grow_ok hg
  rw [h1] at g1
  cases g1
  rw [h3] at g2
  cases g2
  have hflen : w.fileLen mmf.fn = d.len := by unfold World.fileLen; rw [g3]
  rw [hflen] at h9 ⊢
  unfold MMFile.Size
  have hby : ∀ i : Nat, (i : Int) < s2 →
      (mmf.Grow w fl s2).2.1.byteAt (mmf.Grow w fl s2).2.2 i =
        some (if i < d.len then d.byte i else 0) := by
    intro i hi
    have hi' : i < s2.toNat := by omega
    unfold MMFile.byteAt World.load
    rw [g7, g11, g10]
    simp [FileData.read, FileData.resize, hi']
  refine ⟨by rw [g7], g4, g6, fun i hi => ?_, fun hle i hi1 hi2 => ?_⟩
  · refine ⟨d.byte i, ?_, ?_⟩
    · have hi1 : i < mp.len := by omega
      have hi2 : i < d.len := by omega
      unfold MMFile.byteAt World.load
      rw [h2]
      simp [h6, hi1, h4, g3, FileData.read, hi2]
    · rw [hby i (by omega)]
      have hi2 : i < d.len := by omega
      simp [hi2]
  · rw [hby i hi2]
    have hi3 : ¬ i < d.len := by omega
    simp [hi3]

/-! ## A failed growth closes the instance -/

theorem Close_f_none (m : MMFile) (w : World) (fl : Faults) : (m.Close w fl).2.1.f = none := by
  unfold MMFile.Close
  split
  · rfl
  · assumption

/-- C7. On an open instance holding descriptor `fd`, with `newSize` a positive
multiple of the page size above `Size()`: when the truncation fails, or it
succeeds and the new mapping fails, `Grow` returns a non-nil error and leaves
the instance closed — handle nil, mapping nil, `Size() == -1` — with the
descriptor released and no mapping left behind: the table of active mappings
is the one before the call without the instance's mapping. -/
theorem Grow_failure_closes (mmf : MMFile) (w : World) (fl : Faults) (newSize : Int) (fd : Nat)
    (hf : mmf.f = some fd) (hgt : mmf.Size < newSize)
    (hal : 0 < newSize ∧ newSize % (w.pageSize : Int) = 0)
    (hfail : (∃ e, fileTruncate (mmf.unmap w).2 fl mmf.f newSize = .error e) ∨
      (∃ w2, fileTruncate (mmf.unmap w).2 fl mmf.f newSize = .ok w2 ∧
        ∃ e, mapRegion w2 fl mmf.f newSize = .error e)) :
    (mmf.Grow w fl newSize).1 ≠ none ∧
    (mmf.Grow w fl newSize).2.1.f = none ∧
    (mmf.Grow w fl newSize).2.1.mf = none ∧
    (mmf.Grow w fl newSize).2.1.Size = -1 ∧
    (mmf.Grow w fl newSize).2.2.fds fd = none ∧
    (mmf.Grow w fl newSize).2.2.maps = (mmf.unmap w).2.maps ∧
    (∀ mp, mmf.mf = some mp → (mmf.Grow w fl newSize).2.2.maps mp.id = none) := by
  unfold MMFile.Size at hgt ⊢
  have hchk : checkSize w.pageSize newSize = none := (checkSize_eq_none_iff _ _).2 hal
  have hge : ¬ mmf.size ≥ newSize := by omega
  have herr : ∃ e, (mmf.Grow w fl newSize).1 = some e := by
    unfold MMFile.Grow
    simp only [if_neg hge, hchk, unmap_f]
    rcases hfail with ⟨e, he⟩ | ⟨w2, hw2, e, he⟩
    · rw [he]; exact ⟨_, rfl⟩
    · rw [hw2]; simp only; rw [he]; exact ⟨_, rfl⟩
  obtain ⟨e, he⟩ := herr
  rcases Grow_error_cases w fl newSize hf e he with hsame | ⟨c1, -, c3, c4⟩
  · exfalso
    have hsz : (mmf.Grow w fl newSize).2.2 = w := by rw [hsame]
    unfold MMFile.Grow at hsame
    simp only [if_neg hge, hchk, unmap_f] at hsame
    rcases hfail with ⟨e', he'⟩ | ⟨w2, hw2, e', he'⟩
    · rw [he'] at hsame
      simp only [Prod.mk.injEq] at hsame
      have := Close_f_none (mmf.unmap w).1 (mmf.unmap w).2 fl
      rw [hsame.1, hf] at this
      cases this
    · rw [hw2] at hsame
      simp only at hsame
      rw [he'] at hsame
      simp only [Prod.mk.injEq] at hsame
      have := Close_f_none _ _ _ ▸ congrArg MMFile.f hsame.1
      rw [hf] at this
      cases this
  · refine ⟨by rw [he]; simp, by rw [c1], by rw [c1], by rw [c1], c3, c4, fun mp hmp => ?_⟩
    rw [c4]
    exact unmap_maps mmf w mp hmp


/-! ## Closed is terminal -/

theorem closed_step {m : MMFile} (w : World) (op : Op) (h : Closed m) :
    Closed (step op m w).2.1 ∧
    (∀ offs size, op = .buffer offs size → ∃ e, (step op m w).1 = .slice (.err e)) ∧
    (∀ fl n, op = .grow fl n → ∃ e, (step op m w).1 = .error (some e)) := by
  obtain ⟨hf, hs⟩ := h
  have hbuf : ∀ offs size : Int, ∃ e, m.Buffer offs size = (.err e, m) := by
    intro offs size
    have hc : offs < 0 ∨ offs ≥ m.size := by omega
    unfold MMFile.Buffer
    rw [if_pos hc]
    exact ⟨_, rfl⟩
  cases op with
  | size => exact ⟨⟨hf, hs⟩, (fun _ _ h => by cases h), (fun _ _ h => by cases h)⟩
  | buffer offs size =>
    obtain ⟨e, he⟩ := hbuf offs size
    simp only [step, he]
    exact ⟨⟨hf, hs⟩, fun _ _ _ => ⟨e, rfl⟩, (fun _ _ h => by cases h)⟩
  | grow fl n =>
    obtain ⟨⟨e, h1⟩, h2, h3, -⟩ := Grow_of_nil w fl n hf
    simp only [step]
    exact ⟨⟨h2, by rw [h3]; exact hs⟩, (fun _ _ h => by cases h), (fun _ _ _ => ⟨e, by rw [h1]⟩)⟩
  | close fl =>
    simp only [step, Close_of_nil w fl hf]
    exact ⟨⟨hf, hs⟩, (fun _ _ h => by cases h), (fun _ _ h => by cases h)⟩
  | write offs data =>
    obtain ⟨e, he⟩ := hbuf offs data.length
    simp only [step, he]
    exact ⟨⟨hf, hs⟩, (fun _ _ h => by cases h), (fun _ _ h => by cases h)⟩

theorem closed_trace (ops : List Op) {m : MMFile} (w : World) (h : Closed m) :
    ∀ x ∈ trace ops m w, Closed x.2.2.1 ∧
      (∀ offs size, x.1 = .buffer offs size → ∃ e, x.2.1 = .slice (.err e)) ∧
      (∀ fl n, x.1 = .grow fl n → ∃ e, x.2.1 = .error (some e)) := by
  induction ops generalizing m w with
  | nil => intro x hx; simp [trace] at hx
  | cons op ops ih =>
    intro x hx
    simp only [trace, List.mem_cons] at hx
    rcases hx with rfl | hx
    · exact closed_step w op h
    · exact ih _ (closed_step w op h).1 x hx

/-- C9. After `Close()` on an open instance, `Size()` is `-1` and the handle
is nil; and in every sequence of later calls, each `Buffer` returns an error,
each `Grow` returns a non-nil error, and after every call — `Size`, `Buffer`,
`Grow`, `Close` or a view write — the handle is still nil and `Size()` is
still `-1`. -/
theorem Close_is_terminal (mmf : MMFile) (w : World) (fl : Faults) (hopen : mmf.f ≠ none) :
    (mmf.Close w fl).2.1.Size = -1 ∧ (mmf.Close w fl).2.1.f = none ∧
    ∀ ops : List Op, ∀ x ∈ trace ops (mmf.Close w fl).2.1 (mmf.Close w fl).2.2,
      x.2.2.1.f = none ∧ x.2.2.1.Size = -1 ∧
      (∀ offs size, x.1 = .buffer offs size → ∃ e, x.2.1 = .slice (.err e)) ∧
      (∀ fl2 n, x.1 = .grow fl2 n → ∃ e, x.2.1 = .error (some e)) := by
  cases hf : mmf.f with
  | none => exact absurd hf hopen
  | some fd =>
    obtain ⟨c1, -⟩ := Close_of_open w fl hf
    have hc : Closed (mmf.Close w fl).2.1 := ⟨by rw [c1], by rw [c1]⟩
    refine ⟨hc.2, hc.1, fun ops x hx => ?_⟩
    obtain ⟨⟨a, b⟩, c, d⟩ := closed_trace ops _ hc x hx
    exact ⟨a, b, c, d⟩

/-! ## `Grow` sets the file length, up or down -/

/-- C10. (1) After every successful `Grow(newSize)` the file behind the
handle is exactly `newSize` bytes long. (2) A successful `NewMMFile` on a file
at least as long as the mapped size leaves the file as it found it. (3) So on
a three-page `data.bin`, `NewMMFile` with size 4096 returns an instance over
the untouched file, and `Grow(8192)` on it succeeds and cuts the file to 8192
bytes: the byte 7 stored at offset 8192 is gone. -/
theorem Grow_sets_file_length_exactly :
    (∀ (mmf : MMFile) (w : World) (fl : Faults) (newSize : Int) (fd : Nat) (p : String),
      mmf.f = some fd → w.fds fd = some p → (mmf.Grow w fl newSize).1 = none →
      ((mmf.Grow w fl newSize).2.2.fileLen p : Int) = newSize) ∧
    (∀ (w0 : World) (fl : Faults) (fname : String) (s : Int) (m : MMFile),
      (NewMMFile w0 fl fname s).1 = .ok m → m.Size ≤ (w0.fileLen fname : Int) →
      (NewMMFile w0 fl fname s).2.files fname = w0.files fname) ∧
    ((NewMMFile threePageWorld Faults.none "data.bin" 4096).1 = .ok onePage ∧
      (NewMMFile threePageWorld Faults.none "data.bin" 4096).2.fileLen "data.bin" = 12288 ∧
      (NewMMFile threePageWorld Faults.none "data.bin" 4096).2.fileByte "data.bin" 8192 = some 7 ∧
      (onePage.Grow (NewMMFile threePageWorld Faults.none "data.bin" 4096).2
        Faults.none 8192).1 = none ∧
      (onePage.Grow (NewMMFile threePageWorld Faults.none "data.bin" 4096).2
        Faults.none 8192).2.2.fileLen "data.bin" = 8192 ∧
      (onePage.Grow (NewMMFile threePageWorld Faults.none "data.bin" 4096).2
        Faults.none 8192).2.2.fileByte "data.bin" 8192 = none) := by
  refine ⟨?_, ?_, by decide, by decide, by decide, by decide, by decide, by decide⟩
  · intro mmf w fl newSize fd p hf hp hok
    obtain ⟨fd', p', d, g1, g2, g3, g4, g5, g6, g7, g8, g9, g10, g11⟩ :=
      Grow_ok (pair_eta _ _ hok)
    rw [hf] at g1
    cases g1
    rw [hp] at g2
    cases g2
    unfold World.fileLen
    rw [g10]
    simp [FileData.resize]
    omega
  · intro w0 fl fname s m hm hle
    have hp : NewMMFile w0 fl fname s = (.ok m, (NewMMFile w0 fl fname s).2) := by
      rw [← hm]
    obtain ⟨t, -, -, hpos, -, hmeq, -, -, -, hfile⟩ := NewMMFile_ok hp
    rw [hfile]
    have hsz : m.Size = t := by rw [hmeq]; rfl
    rw [hsz] at hle
    have hnlt : ¬ (w0.fileLen fname : Int) < t := by omega
    rw [if_neg hnlt]
    cases hfi : w0.files fname with
    | none =>
      unfold World.fileLen at hle
      rw [hfi] at hle
      simp at hle
      omega
    | some d => rfl

/-! ## The theorems at concrete inputs -/

set_option maxRecDepth 20000

theorem openInst_onePage : OpenInst onePage onePageWorld :=
  ⟨3, ⟨0, "data.bin", 4096⟩, rfl, rfl, by decide, rfl, by decide, by decide, by decide,
    by decide, by decide⟩

theorem Grow_keeps_bytes_and_zero_fills_witness :
    OpenInst onePage onePageWorld ∧ grown.1 = none ∧
    grown.2.1.Size = 8192 ∧
    (∀ i : Nat, (i : Int) < onePage.Size →
      ∃ b, onePage.byteAt onePageWorld i = some b ∧ grown.2.1.byteAt grown.2.2 i = some b) ∧
    (∀ i : Nat, onePage.Size ≤ (i : Int) → (i : Int) < 8192 →
      grown.2.1.byteAt grown.2.2 i = some 0) ∧
    (∃ s, (onePage.Buffer 0 10).1 = .ok s ∧ onePageWorld.readSlice s = some helloWorld) ∧
    (∃ s, (grown.2.1.Buffer 0 10).1 = .ok s ∧ grown.2.2.readSlice s = some helloWorld) ∧
    (∃ s, (grown.2.1.Buffer 4096 10).1 = .ok s ∧
      grown.2.2.readSlice s = some (List.replicate 10 0)) :=
  have h := Grow_keeps_bytes_and_zero_fills onePage onePageWorld Faults.none 8192
    openInst_onePage (by decide)
  ⟨openInst_onePage, by decide, h.1, h.2.2.2.1, h.2.2.2.2 (by decide),
    ⟨⟨some ⟨0, "data.bin", 4096⟩, 0, 10⟩, by decide, by decide⟩,
    ⟨⟨some ⟨1, "data.bin", 8192⟩, 0, 10⟩, by decide, by decide⟩,
    ⟨⟨some ⟨1, "data.bin", 8192⟩, 4096, 4106⟩, by decide, by decide⟩⟩

theorem Grow_failure_closes_witness :
    onePage.f = some 3 ∧ onePage.Size < 8192 ∧
    (∃ e, fileTruncate (onePage.unmap onePageWorld).2 truncateFails onePage.f 8192 = .error e) ∧
    (onePage.Grow onePageWorld truncateFails 8192).1 ≠ none ∧
    (onePage.Grow onePageWorld truncateFails 8192).2.1 = ⟨"data.bin", none, none, -1⟩ ∧
    (onePage.Grow onePageWorld truncateFails 8192).2.2.fds 3 = none ∧
    (onePage.Grow onePageWorld truncateFails 8192).2.2.maps 0 = none :=
  have h := Grow_failure_closes onePage onePageWorld truncateFails 8192 3 rfl (by decide)
    (by decide) (Or.inl ⟨.os 5, rfl⟩)
  ⟨rfl, by decide, ⟨.os 5, rfl⟩, h.1, by decide, h.2.2.2.2.1,
    h.2.2.2.2.2.2 ⟨0, "data.bin", 4096⟩ rfl⟩

theorem open_instance_invariant_witness :
    (NewMMFile emptyWorld Faults.none "data.bin" 4096).1 = .ok onePage ∧
    onePage.Size = 4096 ∧ (run scenarioOps onePage
      (NewMMFile emptyWorld Faults.none "data.bin" 4096).2).1.Size = 12288 ∧
    (12288 : Int) ≤ ((run scenarioOps onePage
      (NewMMFile emptyWorld Faults.none "data.bin" 4096).2).2.fileLen "data.bin" : Int) :=
  have h := open_instance_invariant emptyWorld Faults.none "data.bin" 4096 onePage (by decide)
  ⟨by decide, h.1 (by decide), by decide,
    by
      have h2 := (h.2 scenarioOps (by decide)).2.2.1
      have h3 : (run scenarioOps onePage
          (NewMMFile emptyWorld Faults.none "data.bin" 4096).2).1.Size = 12288 := by decide
      rw [h3] at h2
      exact h2⟩

theorem Close_is_terminal_witness :
    onePage.f ≠ none ∧ (onePage.Close onePageWorld Faults.none).2.1.Size = -1 ∧
    ∀ x ∈ trace scenarioOps (onePage.Close onePageWorld Faults.none).2.1
        (onePage.Close onePageWorld Faults.none).2.2,
      x.2.2.1.f = none ∧ x.2.2.1.Size = -1 :=
  have h := Close_is_terminal onePage onePageWorld Faults.none (by decide)
  ⟨by decide, h.1, fun x hx => ⟨(h.2.2 scenarioOps x hx).1, (h.2.2 scenarioOps x hx).2.1⟩⟩

theorem Grow_sets_file_length_exactly_witness :
    onePage.f = some 3 ∧
    (NewMMFile threePageWorld Faults.none "data.bin" 4096).2.fds 3 = some "data.bin" ∧
    (onePage.Grow (NewMMFile threePageWorld Faults.none "data.bin" 4096).2
      Faults.none 8192).1 = none ∧
    ((onePage.Grow (NewMMFile threePageWorld Faults.none "data.bin" 4096).2
      Faults.none 8192).2.2.fileLen "data.bin" : Int) = 8192 :=
  ⟨rfl, by decide, by decide,
    Grow_sets_file_length_exactly.1 onePage
      (NewMMFile threePageWorld Faults.none "data.bin" 4096).2 Faults.none 8192 3 "data.bin"
      rfl (by decide) (by decide)⟩

end MMFileModel
